import Mathlib

/-!
Verification of the stratumSwitcher core of btcpool-go-modules.

This file shallowly embeds the Go code of `src/stratumSwitcher` into Lean 4
and proves (or refutes) the claims of the specification about it.

Conventions of the embedding:
* Go `uint32` arithmetic is modelled on `Nat`, with an explicit `% 2 ^ 32`
  wherever the Go code can actually wrap.  Where a counter provably cannot
  come near `2 ^ 32` (it tracks the cardinality of a set of bit indices far
  smaller than that), plain `Nat` arithmetic is used and a comment says so.
* The `willf/bitset` bit-set is modelled as a `Finset ℕ` of the positions of
  the set bits.  This is observationally faithful: in that library `Test i`
  returns `false` for any index at or beyond the current length, and `Set i`
  auto-extends the bit-set, so every set bit is always inside the length and
  membership alone determines the result of every operation used here
  (`Test`, `Set`, `Clear`, `ClearAll`).
* Fallible operations return `Option` / `Except`; a `none` at the outermost
  level of `AllocSessionID` models non-termination of the bit-scan loop
  (which is proved unreachable from the states of interest).
-/

/-! ## SessionIDManager (src/stratumSwitcher/SessionIDManager.go) -/

/-- State of `SessionIDManager` (SessionIDManager.go lines 14-35).
`serverID` already carries the shift performed by the constructor
(`uint32(serverID) << indexBits`), exactly as the Go field does. -/
structure SessionIDManager where
  serverID : ℕ
  sessionIDs : Finset ℕ
  count : ℕ
  allocIDx : ℕ
  allocInterval : ℕ
  indexBits : ℕ
  sessionIDMask : ℕ
deriving DecidableEq

/-- `NewSessionIDManager` (SessionIDManager.go lines 38-62).  The two
validation errors are both mapped to `none`. -/
def NewSessionIDManager (serverID indexBits : ℕ) : Option SessionIDManager :=
  if 24 < indexBits then none
  else if serverID = 0 then none
  else some
    { serverID := serverID <<< indexBits
      sessionIDs := ∅
      count := 0
      -- "Set an initial value different from sserver to catch session ID
      -- inconsistencies early" (line 57)
      allocIDx := 128
      allocInterval := 0
      indexBits := indexBits
      sessionIDMask := 2 ^ indexBits - 1 }

/-- `setAllocInterval` (SessionIDManager.go lines 67-69). -/
def setAllocInterval (m : SessionIDManager) (interval : ℕ) : SessionIDManager :=
  { m with allocInterval := interval }

/-- `isFullWithoutLock` (SessionIDManager.go lines 72-74). -/
def isFullWithoutLock (m : SessionIDManager) : Bool :=
  m.sessionIDMask < m.count

/-- The scan loop of `AllocSessionID` (lines 96-98):
`for manager.sessionIDs.Test(allocIDx) { allocIDx = (allocIDx+1) & mask }`.
The loop is given fuel; `none` models divergence (all tested bits set). -/
def findClearIdx (bits : Finset ℕ) (mask : ℕ) : ℕ → ℕ → Option ℕ
  | 0, _ => none
  | fuel + 1, i => if i ∈ bits then findClearIdx bits mask fuel ((i + 1) &&& mask) else some i

/-- `AllocSessionID` (SessionIDManager.go lines 85-108).
`.error m` is the `ErrSessionIDFull` branch (the state is returned
unchanged; the Go code also sets the returned id to `sessionIDMask` there,
which every caller ignores on error).  `.ok (id, m)` is a successful
allocation. -/
def AllocSessionID (m : SessionIDManager) :
    Option (Except SessionIDManager (ℕ × SessionIDManager)) :=
  if isFullWithoutLock m then some (.error m)
  else
    match findClearIdx m.sessionIDs m.sessionIDMask (m.sessionIDMask + 2) m.allocIDx with
    | none => none
    | some idx =>
        some (.ok (m.serverID ||| idx,
          { m with
            sessionIDs := insert idx m.sessionIDs
            -- count++ : the count equals the number of set bits, which stays
            -- far below 2^32, so the uint32 increment never wraps.
            count := m.count + 1
            allocIDx := ((idx + m.allocInterval) % 2 ^ 32) &&& m.sessionIDMask }))

/-- `ResumeSessionID` (SessionIDManager.go lines 111-133).
`.error ()` is `ErrSessionIDOccupied`. -/
def ResumeSessionID (m : SessionIDManager) (sessionID : ℕ) :
    Except Unit SessionIDManager :=
  let idx := sessionID &&& m.sessionIDMask
  if idx ∈ m.sessionIDs then .error ()
  else
    let m₁ := { m with sessionIDs := insert idx m.sessionIDs, count := m.count + 1 }
    -- line 127-129: `if manager.allocIDx <= idx { manager.allocIDx = idx + manager.allocInterval }`
    -- note: no `& mask` here, unlike every cursor update in AllocSessionID.
    if m₁.allocIDx ≤ idx then .ok { m₁ with allocIDx := (idx + m₁.allocInterval) % 2 ^ 32 }
    else .ok m₁

/-- `FreeSessionID` (SessionIDManager.go lines 136-149).  The decrement is
guarded by the membership test, and the count equals the number of set bits,
so the uint32 decrement never wraps. -/
def FreeSessionID (m : SessionIDManager) (sessionID : ℕ) : SessionIDManager :=
  let idx := sessionID &&& m.sessionIDMask
  if idx ∈ m.sessionIDs then
    { m with sessionIDs := m.sessionIDs.erase idx, count := m.count - 1 }
  else m

/-! ## ResumeStratumSession (src/stratumSwitcher/StratumSessionManager.go lines 220-252) -/

/-- Outcomes of the four connection checks that `ResumeStratumSession`
performs before touching the session-ID manager (lines 221-242); each
`true` flag makes the corresponding early `return` fire. -/
structure ResumeConnState where
  clientConnErr : Bool
  serverConnErr : Bool
  clientRemoteAddrNil : Bool
  serverRemoteAddrNil : Bool
deriving DecidableEq

/-- `ResumeStratumSession` (lines 220-252).  The returned `Bool` is `true`
exactly when the function reaches `NewStratumSession` / `session.Resume`,
i.e. when a session object is constructed and run for the session data.
Note lines 245-248: when `ResumeSessionID` fails the error is only logged
(`glog.Error`) — there is no `return` — and the code falls through to
construct and run the session anyway. -/
def ResumeStratumSession (m : SessionIDManager) (conn : ResumeConnState)
    (sessionID : ℕ) : SessionIDManager × Bool :=
  if conn.clientConnErr then (m, false)
  else if conn.serverConnErr then (m, false)
  else if conn.clientRemoteAddrNil then (m, false)
  else if conn.serverRemoteAddrNil then (m, false)
  else
    match ResumeSessionID m sessionID with
    | .error _ => (m, true)
    | .ok m₁ => (m₁, true)

/-- Iterated allocation: `n` successive `AllocSessionID` calls, keeping only
the state; `none` if any call returns the Full error or diverges. -/
def allocN : ℕ → SessionIDManager → Option SessionIDManager
  | 0, m => some m
  | n + 1, m =>
      match AllocSessionID m with
      | some (.ok (_, m')) => allocN n m'
      | _ => none

/-- The clean-connection case of `ResumeStratumSession`: all four early
checks pass. -/
def resumeConnOK : ResumeConnState := ⟨false, false, false, false⟩

/-- The manager state produced by `NewSessionIDManager(2, 16)` followed by
`setAllocInterval(256)` — exactly the configuration `NewStratumSessionManager`
builds for `ChainType == "ethereum"` with `ServerID = 2`
(StratumSessionManager.go lines 82-84 and 118-127). -/
def ethMgr0 : SessionIDManager :=
  { serverID := 2 <<< 16
    sessionIDs := ∅
    count := 0
    allocIDx := 128
    allocInterval := 256
    indexBits := 16
    sessionIDMask := 2 ^ 16 - 1 }

/-- `ethMgr0` after `ResumeSessionID(0x2FFFF)` (session index 0xFFFF):
the bit is set and the cursor is moved to `0xFFFF + 256 = 0x100FF`,
past the index mask. -/
def ethMgr1 : SessionIDManager :=
  { ethMgr0 with sessionIDs := {65535}, count := 1, allocIDx := 65791 }

/-- `ethMgr1` after the subsequent `AllocSessionID`, which finds the
out-of-range cursor position 0x100FF "clear" and allocates it. -/
def ethMgr2 : SessionIDManager :=
  { ethMgr0 with sessionIDs := {65791, 65535}, count := 2, allocIDx := 511 }

/-- The manager state produced by `NewSessionIDManager(1, 24)` — the
configuration `NewStratumSessionManager` builds for `ChainType == "bitcoin"`
with `ServerID = 1`. -/
def btcMgr0 : SessionIDManager :=
  { serverID := 1 <<< 24
    sessionIDs := ∅
    count := 0
    allocIDx := 128
    allocInterval := 0
    indexBits := 24
    sessionIDMask := 2 ^ 24 - 1 }

/-- `btcMgr0` after `ResumeSessionID(0x1000005)` (session index 5). -/
def btcMgr1 : SessionIDManager :=
  { btcMgr0 with sessionIDs := {5}, count := 1, allocIDx := 128 }

/-! ## JSON-RPC model (src/stratumSwitcher/JSONRPC.go) -/

/-- JSON values, used for request parameters and synthesized results
(`interface{}` / `JSONRPCArray` / `JSONRPCObj` in the Go code). -/
inductive JVal where
  | null
  | bool (b : Bool)
  | num (n : ℤ)
  | str (s : String)
  | arr (elems : List JVal)
  | obj (fields : List (String × JVal))

/-- `JSONRPCRequest` (JSONRPC.go lines 8-15).  The `id` is kept abstract as a
JSON value; `worker` is the optional ETHProxy worker field. -/
structure JSONRPCRequest where
  id : JVal
  method : String
  params : List JVal
  worker : String

/-- `StratumError` (Errors.go lines 6-11). -/
structure StratumError where
  errNo : ℕ
  errMsg : String
deriving DecidableEq

/-- Errors.go line 55. -/
def StratumErrNeedSubscribed : StratumError := ⟨101, "Need Subscribed"⟩

/-- Errors.go line 57. -/
def StratumErrDuplicateSubscribed : StratumError := ⟨102, "Duplicate Subscribed"⟩

/-- Errors.go line 59. -/
def StratumErrTooFewParams : StratumError := ⟨103, "Too Few Params"⟩

/-- Errors.go line 61. -/
def StratumErrWorkerNameMustBeString : StratumError := ⟨104, "Worker Name Must be a String"⟩

/-- Errors.go line 63. -/
def StratumErrWorkerNameStartWrong : StratumError := ⟨105, "Sub-account Name Cannot be Empty"⟩

/-! ## Chain types, protocol types and handshake state (ConfigData.go, StratumSession.go) -/

/-- `ChainType` (ConfigData.go lines 11-22). -/
inductive ChainType where
  | bitcoin
  | decredNormal
  | decredGoMiner
  | ethereum
deriving DecidableEq

/-- `ProtocolType` (StratumSession.go lines 58-71). -/
inductive ProtocolType where
  | bitcoinStratum
  | ethereumStratum
  | ethereumStratumNiceHash
  | ethereumProxy
  | unknown
deriving DecidableEq

/-- `RunningStat` (StratumSession.go lines 74-83); the Go spelling
`StatStoped` is kept. -/
inductive RunningStat where
  | statRunning
  | statStoped
  | statReconnecting
deriving DecidableEq

/-- `AuthorizeStat` (StratumSession.go lines 86-95). -/
inductive AuthorizeStat where
  | statConnected
  | statSubScribed
  | statAuthorized
deriving DecidableEq

/-- StratumSession.go line 20 (Go constant `btcAgentClientTypePrefix`; the
name is shortened here). -/
def btcAgentClientType : String := "btccom-agent/"

/-- StratumSession.go line 23 (Go constant `niceHashClientTypePrefix`). -/
def niceHashClientType : String := "nicehash/"

/-- StratumSession.go line 26 (Go constant `ethereumStratumNiceHashPrefix`). -/
def ethereumStratumNiceHashType : String := "ethereumstratum/"

/-- StratumSession.go line 29. -/
def ethereumStratumNiceHashVersion : String := "EthereumStratum/1.0.0"

/-- StratumSession.go line 32. -/
def ethproxyVersion : String := "ETHProxy/1.0.0"

/-- StratumSession.go line 52. -/
def retryTimeWhenServerDown : ℕ := 10

/-! ## String helpers -/

/-- ASCII lowering of one character, as `strings.ToLower` acts on the ASCII
strings compared in this development. -/
def charToLower (c : Char) : Char :=
  if 65 ≤ c.toNat ∧ c.toNat ≤ 90 then Char.ofNat (c.toNat + 32) else c

/-- `strings.ToLower` (the strings it is applied to here are ASCII). -/
def strToLower (s : String) : String := String.mk (s.data.map charToLower)

/-- `strings.HasPrefix`. -/
def strHasPre (s p : String) : Bool := List.isPrefixOf p.data s.data

/-- Go string slicing `s[lo:hi]`; the strings sliced in this development are
ASCII hex renderings, for which byte indices and character indices agree. -/
def goStringSlice (s : String) (lo hi : ℕ) : String :=
  String.mk (List.take (hi - lo) (List.drop lo s.data))

/-- Modelled from the spec: `Uint32ToHex` lives in a utility file of the
repository that is not under `src/`; per the spec it is the big-endian hex
rendering of the 32-bit session ID (`"%08x"`, 8 lowercase hex characters,
e.g. `0x03000001` ↦ `"03000001"`). -/
def Uint32ToHex (n : ℕ) : String :=
  String.mk ((List.range 8).map fun i => Nat.digitChar (n % 2 ^ 32 / 16 ^ (7 - i) % 16))

/-- Modelled from the spec: `Uint32ToHexLE` (utility file not under `src/`),
the little-endian 8-hex-character rendering used by the Decred chain types
(bytes of the uint32 in reverse order, each as two hex characters). -/
def Uint32ToHexLE (n : ℕ) : String :=
  String.mk (((List.range 4).map fun i =>
    [Nat.digitChar (n % 2 ^ 32 / 256 ^ i / 16 % 16),
     Nat.digitChar (n % 2 ^ 32 / 256 ^ i % 16)]).flatten)

/-- Modelled from the spec: `FilterWorkerName` (utility file not under
`src/`) strips non-printable characters and control characters from the
worker name; printable ASCII (0x20-0x7E) is kept. -/
def FilterWorkerName (workerName : String) : String :=
  String.mk (workerName.data.filter fun c => 0x20 <= c.toNat && c.toNat <= 0x7E)

/-- Decision of "is an ASCII hex digit", for the Ethereum address pattern. -/
def isHexChar (c : Char) : Bool :=
  (0x30 <= c.toNat && c.toNat <= 0x39) ||
  (0x61 <= c.toNat && c.toNat <= 0x66) ||
  (0x41 <= c.toNat && c.toNat <= 0x46)

/-- Modelled from the spec: `StripEthAddrFromFullName` (utility file not
under `src/`) strips a leading hex Ethereum address, pattern `0x` + 40 hex
characters, from the full worker name; per the spec the remainder alone
becomes the sub-account, so a dot following the address is dropped with it.
A name that does not start with `0x` is returned unchanged. -/
def StripEthAddrFromFullName (fullName : String) : String :=
  match fullName.data with
  | '0' :: 'x' :: rest =>
      if 40 ≤ rest.length && (List.take 40 rest).all isHexChar then
        match List.drop 40 rest with
        | '.' :: remainder => String.mk remainder
        | remainder => String.mk remainder
      else fullName
  | _ => fullName

/-! ## Sub-account regularizer (StratumSessionManager.go lines 333-357) -/

/-- The configuration and external state consumed by
`GetRegularSubaccountName`: the two config fields and the coordinator store
read `zookeeperConn.Get` (`none` models a read error, e.g. no such node). -/
structure MgrConfig where
  stratumServerCaseInsensitive : Bool
  zkUserCaseInsensitiveIndex : String
  caseIndexGet : String → Option String

/-- `GetRegularSubaccountName` (StratumSessionManager.go lines 333-357). -/
def GetRegularSubaccountName (cfg : MgrConfig) (subAccountName : String) : String :=
  if cfg.stratumServerCaseInsensitive then strToLower subAccountName
  else if cfg.zkUserCaseInsensitiveIndex.length = 0 then subAccountName
  else
    match cfg.caseIndexGet (cfg.zkUserCaseInsensitiveIndex ++ strToLower subAccountName) with
    | none => subAccountName
    | some regularName => regularName

/-! ## Session state and the handshake request handlers (StratumSession.go) -/

/-- The fields of `StratumSession` read or written by the handshake request
handlers embedded below (StratumSession.go lines 98-146). -/
structure SessionState where
  protocolType : ProtocolType
  isBTCAgent : Bool
  isNiceHashClient : Bool
  jsonRPCVersion : ℕ
  sessionID : ℕ
  sessionIDString : String
  fullWorkerName : String
  subaccountName : String
  minerNameWithDot : String
  stratumSubscribeRequest : Option JSONRPCRequest
  stratumAuthorizeRequest : Option JSONRPCRequest
  versionMask : ℕ

/-- The `sessionIDString` computed by `NewStratumSession`
(StratumSession.go lines 163-175). -/
def sessionIDStringOf (chainType : ChainType) (sessionID : ℕ) : String :=
  match chainType with
  | .bitcoin => Uint32ToHex sessionID
  | .decredNormal => "0000000000000000" ++ Uint32ToHexLE sessionID
  | .decredGoMiner => Uint32ToHexLE sessionID
  | .ethereum => goStringSlice (Uint32ToHex sessionID) 2 8

/-- `parseSubscribeRequest` (StratumSession.go lines 416-485).  Returns the
synthesized result, the error, and the updated session (the Go code mutates
`session` in place).  The `default:` branch of the Go switch is unreachable
here because `ChainType` has exactly the four listed values. -/
def parseSubscribeRequest (chainType : ChainType) (sess : SessionState)
    (request : JSONRPCRequest) : Option JVal × Option StratumError × SessionState :=
  -- line 418: save the original subscription request
  let sess := { sess with stratumSubscribeRequest := some request }
  match chainType with
  | .bitcoin | .decredNormal | .decredGoMiner =>
      let sess :=
        match request.params with
        | .str userAgent :: _ =>
            if strHasPre (strToLower userAgent) btcAgentClientType then
              { sess with isBTCAgent := true }
            else sess
        | _ => sess
      (some (.arr [.arr [.arr [.str "mining.set_difficulty", .str sess.sessionIDString],
                         .arr [.str "mining.notify", .str sess.sessionIDString]],
                   .str sess.sessionIDString, .num 8]),
       none, sess)
  | .ethereum =>
      let sess := { sess with protocolType := .ethereumStratum }
      let sess :=
        match request.params with
        | .str userAgent :: _ =>
            let sess :=
              if strHasPre (strToLower userAgent) niceHashClientType then
                { sess with isNiceHashClient := true }
              else sess
            if strHasPre (strToLower userAgent) btcAgentClientType then
              { sess with isBTCAgent := true, protocolType := .ethereumStratumNiceHash }
            else sess
        | _ => sess
      let sess :=
        match request.params with
        | _ :: .str protocol :: _ =>
            if strHasPre (strToLower protocol) ethereumStratumNiceHashType then
              { sess with protocolType := .ethereumStratumNiceHash }
            else sess
        | _ => sess
      if sess.protocolType = .ethereumStratumNiceHash then
        let extraNonce :=
          if sess.isNiceHashClient then goStringSlice sess.sessionIDString 0 4
          else sess.sessionIDString
        (some (.arr [.arr [.str "mining.notify", .str sess.sessionIDString,
                           .str ethereumStratumNiceHashVersion],
                     .str extraNonce]),
         none, sess)
      else (some (.bool true), none, sess)

/-- The dummy subscribe request synthesized by
`makeSubscribeMessageForEthProxy` (StratumSession.go lines 487-493). -/
def ethProxySubscribeRequest : JSONRPCRequest :=
  { id := .null, method := "mining.subscribe",
    params := [.str "ETHProxy", .str ethproxyVersion], worker := "" }

/-- Lines 516-525 of `parseAuthorizeRequest`: filter the worker name; for
non-Bitcoin protocol variants append the `worker` field (if present) and
strip a leading Ethereum address. -/
def assembleWorkerName (sess : SessionState) (request : JSONRPCRequest)
    (fullWorkerName : String) : SessionState :=
  let sess : SessionState :=
    { sess with fullWorkerName := FilterWorkerName fullWorkerName }
  if sess.protocolType ≠ .bitcoinStratum then
    let sess : SessionState :=
      if request.worker ≠ "" then
        { sess with fullWorkerName :=
            sess.fullWorkerName ++ "." ++ FilterWorkerName request.worker }
      else sess
    { sess with fullWorkerName := StripEthAddrFromFullName sess.fullWorkerName }
  else sess

/-- Lines 527-537 of `parseAuthorizeRequest`: split the full worker name at
the first `.` into the sub-account name (regularized) and the miner name
with its leading dot. -/
def splitWorkerName (cfg : MgrConfig) (sess : SessionState) : SessionState :=
  if sess.fullWorkerName.data.contains '.' then
    let pos := sess.fullWorkerName.data.findIdx (· = '.')
    let subaccountName :=
      GetRegularSubaccountName cfg (String.mk (List.take pos sess.fullWorkerName.data))
    let minerNameWithDot := String.mk (List.drop pos sess.fullWorkerName.data)
    { sess with subaccountName := subaccountName,
                minerNameWithDot := minerNameWithDot,
                fullWorkerName := subaccountName ++ minerNameWithDot }
  else
    let subaccountName := GetRegularSubaccountName cfg sess.fullWorkerName
    { sess with subaccountName := subaccountName,
                minerNameWithDot := "",
                fullWorkerName := subaccountName }

/-- `parseAuthorizeRequest` (StratumSession.go lines 495-549).  On success
both the result and the error are `none` (line 546: nothing is returned to
the miner; the upstream response will be forwarded instead).  Note that the
session fields are updated before the empty-sub-account check, exactly as in
the Go code. -/
def parseAuthorizeRequest (cfg : MgrConfig) (sess : SessionState)
    (request : JSONRPCRequest) : Option JVal × Option StratumError × SessionState :=
  -- line 497: save the original request
  let sess := { sess with stratumAuthorizeRequest := some request }
  match request.params with
  | [] => (none, some StratumErrTooFewParams, sess)
  | p0 :: _ =>
      match p0 with
      | .str fullWorkerName =>
          let sess := splitWorkerName cfg (assembleWorkerName sess request fullWorkerName)
          if sess.subaccountName.length < 1 then
            (none, some StratumErrWorkerNameStartWrong, sess)
          else (none, none, sess)
      | _ => (none, some StratumErrWorkerNameMustBeString, sess)

/-- Hex parsing as done by `strconv.ParseUint(s, 16, 32)`: all characters
must be hex digits, the string non-empty, and the value must fit 32 bits. -/
def parseHexUint32 (s : String) : Option ℕ :=
  if s.data ≠ [] && s.data.all isHexChar then
    let v := s.data.foldl (fun acc c =>
      acc * 16 + (if c.toNat <= 0x39 then c.toNat - 0x30
                  else if c.toNat >= 0x61 then c.toNat - 0x61 + 10
                  else c.toNat - 0x41 + 10)) 0
    if v < 2 ^ 32 then some v else none
  else none

/-- `getVersionMaskStr` (StratumSession.go lines 1605-1607):
`fmt.Sprintf("%08x", versionMask)`. -/
def getVersionMaskStr (versionMask : ℕ) : String := Uint32ToHex versionMask

/-- `parseConfigureRequest` (StratumSession.go lines 551-585). -/
def parseConfigureRequest (sess : SessionState) (request : JSONRPCRequest) :
    Option JVal × Option StratumError × SessionState :=
  match request.params with
  | _ :: p1 :: _ =>
      let sess :=
        match p1 with
        | .obj options =>
            match options.find? (fun f => f.1 == "version-rolling.mask") with
            | some (_, .str versionMaskStr) =>
                match parseHexUint32 versionMaskStr with
                | some versionMask => { sess with versionMask := versionMask }
                | none => sess
            | _ => sess
        | _ => sess
      if sess.versionMask ≠ 0 then
        (some (.obj [("version-rolling", .bool true),
                     ("version-rolling.mask", .str (getVersionMaskStr sess.versionMask))]),
         none, sess)
      else (none, none, sess)
  | _ => (none, some StratumErrTooFewParams, sess)

/-- The result of one `stratumHandleRequest` step: the response result, the
response error, the updated session and the updated handshake state
(`*stat` is passed by pointer in the Go code). -/
structure HandleOut where
  result : Option JVal
  err : Option StratumError
  sess : SessionState
  stat : AuthorizeStat

/-- The shared `mining.authorize` branch of `stratumHandleRequest`
(StratumSession.go lines 608-617); `eth_submitLogin` falls through to it. -/
def stratumHandleAuthorize (cfg : MgrConfig) (sess : SessionState)
    (request : JSONRPCRequest) (stat : AuthorizeStat) : HandleOut :=
  if stat ≠ .statSubScribed then ⟨none, some StratumErrNeedSubscribed, sess, stat⟩
  else
    match parseAuthorizeRequest cfg sess request with
    | (result, none, sess) => ⟨result, none, sess, .statAuthorized⟩
    | (result, some e, sess) => ⟨result, some e, sess, stat⟩

/-- `stratumHandleRequest` (StratumSession.go lines 587-629). -/
def stratumHandleRequest (cfg : MgrConfig) (chainType : ChainType)
    (sess : SessionState) (request : JSONRPCRequest) (stat : AuthorizeStat) :
    HandleOut :=
  match request.method with
  | "mining.subscribe" =>
      if stat ≠ .statConnected then ⟨none, some StratumErrDuplicateSubscribed, sess, stat⟩
      else
        match parseSubscribeRequest chainType sess request with
        | (result, none, sess) => ⟨result, none, sess, .statSubScribed⟩
        | (result, some e, sess) => ⟨result, some e, sess, stat⟩
  | "eth_submitLogin" =>
      -- lines 600-607: for ProtocolEthereumProxy this is an implicit
      -- subscribe, then control falls through to the authorize branch.
      let (sess, stat) :=
        if sess.protocolType = .ethereumProxy then
          ({ sess with stratumSubscribeRequest := some ethProxySubscribeRequest,
                       jsonRPCVersion := 2 },
           AuthorizeStat.statSubScribed)
        else (sess, stat)
      stratumHandleAuthorize cfg sess request stat
  | "mining.authorize" => stratumHandleAuthorize cfg sess request stat
  | "mining.configure" =>
      if sess.protocolType = .bitcoinStratum then
        match parseConfigureRequest sess request with
        | (result, e, sess) => ⟨result, e, sess, stat⟩
      else ⟨none, none, sess, stat⟩
  | _ => ⟨none, none, sess, stat⟩

/-! ## Reconnect loop and currency switch (StratumSession.go lines 1408-1489) -/

/-- The retry loop body of `reconnectStratumServer` (lines 1462-1471):
`for i := -1; i < retryTime; i++ { err = connect(); if err == nil break else sleep(1s) }`.
`connectOK n` is the outcome of the `n`-th `connectStratumServer` call
(0-based); the first argument is the number of loop iterations still
permitted.  Returns (number of calls made, number of 1-second sleeps,
whether the loop ended with success). -/
def reconnectTryLoop (connectOK : ℕ → Bool) : ℕ → ℕ → ℕ → ℕ × ℕ × Bool
  | 0, calls, sleeps => (calls, sleeps, false)
  | n + 1, calls, sleeps =>
      if connectOK calls then (calls + 1, sleeps, true)
      else reconnectTryLoop connectOK n (calls + 1) (sleeps + 1)

/-- The observable outcome of `reconnectStratumServer`. -/
structure ReconnectOut where
  connectCalls : ℕ
  sleeps : ℕ
  stopped : Bool
  backToRunning : Bool
deriving DecidableEq

/-- `reconnectStratumServer` (StratumSession.go lines 1436-1489), reduced to
the retry loop and its two exits: for `i` from `-1` while `i < retryTime`
the loop makes up to `retryTime + 1` calls to `connectStratumServer`
(the comment at line 1463 reads "At least try it once, so start with -1"),
sleeping one second after every failed call; if the last call still failed
the session is stopped asynchronously (`go session.Stop()`), otherwise the
state returns to `StatRunning`. -/
def reconnectStratumServerModel (connectOK : ℕ → Bool) (retryTime : ℕ) : ReconnectOut :=
  let r := reconnectTryLoop connectOK (retryTime + 1) 0 0
  ⟨r.1, r.2.1, !r.2.2, r.2.2⟩

/-- The session fields involved in the `switchCoinType` gate
(StratumSession.go lines 113-118 and 140-141).  The reconnect counter is a
Go `uint32`; it counts reconnections of one TCP session, so its increments
never come near wrapping, and the gate only compares it for equality. -/
structure SessionLifeState where
  runningStat : RunningStat
  reconnectCounter : ℕ
  miningCoin : String
deriving DecidableEq

/-- Outcome of `switchCoinType`: the resulting session fields and whether
the gate was passed (the state was set to `StatReconnecting` and
`reconnectStratumServer` entered). -/
structure SwitchOut where
  final : SessionLifeState
  enteredReconnecting : Bool
deriving DecidableEq

/-- `switchCoinType` (StratumSession.go lines 1408-1433) together with the
`reconnectStratumServer` call it makes when the gate passes.  Note line
1410: `session.miningCoin = newMiningCoin` runs before the lock is taken
and before either gate check.  On a passed gate, the final running state is
`StatRunning` if some connect attempt succeeds and `StatStoped` otherwise
(`reconnectStratumServer` exits). -/
def switchCoinType (connectOK : ℕ → Bool) (s : SessionLifeState)
    (newMiningCoin : String) (currentReconnectCounter : ℕ) : SwitchOut :=
  let s := { s with miningCoin := newMiningCoin }
  if s.runningStat ≠ .statRunning then ⟨s, false⟩
  else if currentReconnectCounter ≠ s.reconnectCounter then ⟨s, false⟩
  else
    let s := { s with runningStat := RunningStat.statReconnecting,
                      reconnectCounter := s.reconnectCounter + 1 }
    let out := reconnectStratumServerModel connectOK retryTimeWhenServerDown
    if out.stopped then ⟨{ s with runningStat := .statStoped }, true⟩
    else ⟨{ s with runningStat := .statRunning }, true⟩

/-! ## Upstream subscribe/authorize exchange (StratumSession.go lines 904-1114) -/

/-- `StratumServerInfo` (StratumSessionManager.go lines 18-21). -/
structure StratumServerInfo where
  url : String
  userSuffix : String
deriving DecidableEq

/-- The session fields consumed by the upstream authorize exchange. -/
structure ServerAuthCtx where
  fullWorkerName : String
  subaccountName : String
  minerNameWithDot : String
  miningCoin : String
  stratumServerInfoMap : List (String × StratumServerInfo)

/-- Association-list lookup, modelling a Go map read (`m[k]`). -/
def assocLookup {α β : Type} [BEq α] (l : List (α × β)) (k : α) : Option β :=
  (l.find? (fun p => p.1 == k)).map (fun p => p.2)

/-- Association-list update, modelling a Go map write (`m[k] = v`): replaces
the entry if the key is present, appends otherwise. -/
def assocSet {α β : Type} [BEq α] (l : List (α × β)) (k : α) (v : β) :
    List (α × β) :=
  if l.any (fun p => p.1 == k) then
    l.map (fun p => if p.1 == k then (k, v) else p)
  else l ++ [(k, v)]

/-- `getUserSuffix` (StratumSession.go lines 904-911): the configured user
suffix of the mining coin, or the coin key itself when the coin has no
entry in the server map. -/
def getUserSuffix (ctx : ServerAuthCtx) : String :=
  match assocLookup ctx.stratumServerInfoMap ctx.miningCoin with
  | none => ctx.miningCoin
  | some serverInfo => serverInfo.userSuffix

/-- The worker name sent by `sendMiningAuthorizeToServer` (StratumSession.go
lines 914-921): with suffix it is
`subaccountName + "_" + getUserSuffix() + minerNameWithDot`, without suffix
it is the full worker name. -/
def authWorkerNameOf (ctx : ServerAuthCtx) (withSuffix : Bool) : String :=
  if withSuffix then ctx.subaccountName ++ "_" ++ getUserSuffix ctx ++ ctx.minerNameWithDot
  else ctx.fullWorkerName

/-- One line received from the server during the subscribe/authorize
exchange, already classified the way the Go receive loop classifies it:
a JSON-RPC response with string id `"configure"`, `"subscribe"` (with the
outcome of `stratumHandleServerSubscribeResponse`) or `"auth"` (with
whether `response.Result` is boolean `true`), any other response carrying a
non-nil id (ignored by `stratumHandleServerResponse`), or a notification
(nil id, handled by `stratumHandleServerNotify`). -/
inductive ServerMessage where
  | respConfigure
  | respSubscribe (handleOK : Bool)
  | respAuth (success : Bool)
  | respOtherID
  | notify
deriving DecidableEq

/-- Outcome of the receive loop of `serverSubscribeAndAuthorize`:
the worker names of all `mining.authorize` requests sent to the server (in
order), and the `authSuccess` flag of the authorize response forwarded to
the client (`none` when the exchange aborts on a subscribe error or the
server goes silent before two auth responses, in which case the 10-second
timeout of the Go code fires and no authorize response is forwarded). -/
structure AuthExchangeOut where
  sentAuthNames : List String
  forwarded : Option Bool
deriving DecidableEq

/-- The check run after every handled response (StratumSession.go lines
987-994): "If the first authentication (without currency suffix) is
unsuccessful, send the second authentication request (with currency
suffix)". -/
def checkSendSecondAuth (ctx : ServerAuthCtx) (authMsgCounter : ℕ)
    (authSuccess : Bool) (sent : List String) : List String :=
  if !authSuccess && authMsgCounter == 1 then sent ++ [authWorkerNameOf ctx true]
  else sent

/-- The receive loop of `serverSubscribeAndAuthorize` (StratumSession.go
lines 958-1014) combined with `stratumHandleServerResponse` (lines
1088-1114): it runs while `authMsgCounter < 2`; an `"auth"` response
increments the counter (jumping it to 2 on success), replaces the stored
authorize response unless a success is already stored, and marks success;
after every response the second (suffixed) authorize may be sent. -/
def serverAuthLoop (ctx : ServerAuthCtx) : List ServerMessage → ℕ → Bool →
    Option Bool → List String → AuthExchangeOut
  | msgs, authMsgCounter, authSuccess, authResponse, sent =>
    if 2 ≤ authMsgCounter then ⟨sent, authResponse⟩
    else
      match msgs with
      | [] => ⟨sent, none⟩
      | msg :: rest =>
          match msg with
          | .notify => serverAuthLoop ctx rest authMsgCounter authSuccess authResponse sent
          | .respConfigure =>
              serverAuthLoop ctx rest authMsgCounter authSuccess authResponse
                (checkSendSecondAuth ctx authMsgCounter authSuccess sent)
          | .respOtherID =>
              serverAuthLoop ctx rest authMsgCounter authSuccess authResponse
                (checkSendSecondAuth ctx authMsgCounter authSuccess sent)
          | .respSubscribe handleOK =>
              if handleOK then
                serverAuthLoop ctx rest authMsgCounter authSuccess authResponse
                  (checkSendSecondAuth ctx authMsgCounter authSuccess sent)
              else ⟨sent, none⟩
          | .respAuth success =>
              let authResponse := if success || !authSuccess then some success else authResponse
              let authSuccess := authSuccess || success
              let authMsgCounter := if success then 2 else authMsgCounter + 1
              serverAuthLoop ctx rest authMsgCounter authSuccess authResponse
                (checkSendSecondAuth ctx authMsgCounter authSuccess sent)

/-- `serverSubscribeAndAuthorize` (StratumSession.go lines 942-1069),
restricted to its authorize bookkeeping: before the receive loop the first
authorize is sent without suffix (line 952), then the loop processes the
given server messages. -/
def serverSubscribeAndAuthorize (ctx : ServerAuthCtx) (msgs : List ServerMessage) :
    AuthExchangeOut :=
  serverAuthLoop ctx msgs 0 false none [authWorkerNameOf ctx false]

/-! ## Zookeeper watcher fan-out (src/stratumSwitcher/ZookeeperManager.go) -/

/-- `NodeWatcher` (ZookeeperManager.go lines 23-34).  Delivery channels are
identified by numeric ids handed out by an allocation counter of the
manager model; `watcherChannels` maps session ids to channel ids. -/
structure NodeWatcher where
  nodePath : String
  nodeValue : String
  watcherChannels : List (ℕ × ℕ)
deriving DecidableEq

/-- `ZookeeperManager` (ZookeeperManager.go lines 65-72): the watcher map
plus an allocation counter for fresh delivery-channel identities (each
`make(chan zk.Event, 1)` in the Go code yields a new channel object). -/
structure ZookeeperManager where
  watcherMap : List (String × NodeWatcher)
  nextChan : ℕ
deriving DecidableEq

/-- Observable outcome of `ZookeeperManager.GetW`: the updated manager, the
returned value and channel, the capacity of the freshly made channel,
whether an error was returned, whether the underlying store was queried
(`zookeeperConn.GetW`), and which channels were closed during the call. -/
structure GetWOut where
  mgr : ZookeeperManager
  value : Option String
  eventChan : Option ℕ
  chanCapacity : ℕ
  err : Bool
  storeQueried : Bool
  closedChans : List ℕ
deriving DecidableEq

/-- `GetW` (ZookeeperManager.go lines 121-153).  `store` models the
underlying `zookeeperConn.GetW` (`none` = error).  When the path already has
a watcher, the stored `nodeValue` snapshot is returned and the store is not
consulted; in every case a fresh one-element channel is registered under
`sessionID` (a previous channel under the same session id is replaced in the
map without being closed). -/
def GetW (store : String → Option String) (mgr : ZookeeperManager)
    (path : String) (sessionID : ℕ) : GetWOut :=
  match assocLookup mgr.watcherMap path with
  | some watcher =>
      let eventChan := mgr.nextChan
      let watcher' :=
        { watcher with watcherChannels := assocSet watcher.watcherChannels sessionID eventChan }
      ⟨⟨assocSet mgr.watcherMap path watcher', mgr.nextChan + 1⟩,
       some watcher.nodeValue, some eventChan, 1, false, false, []⟩
  | none =>
      match store path with
      | none => ⟨mgr, none, none, 1, true, true, []⟩
      | some nodeValue =>
          let watcher : NodeWatcher := ⟨path, nodeValue, []⟩
          let eventChan := mgr.nextChan
          let watcher' :=
            { watcher with watcherChannels := assocSet watcher.watcherChannels sessionID eventChan }
          ⟨⟨assocSet mgr.watcherMap path watcher', mgr.nextChan + 1⟩,
           some nodeValue, some eventChan, 1, false, true, []⟩

/-- Server messages that may precede the authorize responses without
affecting the authorize bookkeeping: anything but an `"auth"` response or a
failing `"subscribe"` response. -/
def isPreAuthOK : ServerMessage → Bool
  | .respAuth _ => false
  | .respSubscribe handleOK => handleOK
  | _ => true

/-! ## Sample configurations used by the witnesses -/

/-- A sample regularizer configuration: case-insensitive upstream, no case
index. -/
def sampleCfg : MgrConfig := ⟨true, "", fun _ => none⟩

/-- A sample session state: a fresh Ethereum session of `ethMgr0`
(session ID `0x20080`, session ID string `"020080"`). -/
def sampleSession : SessionState :=
  { protocolType := .ethereumProxy
    isBTCAgent := false
    isNiceHashClient := false
    jsonRPCVersion := 1
    sessionID := 131200
    sessionIDString := sessionIDStringOf .ethereum 131200
    fullWorkerName := ""
    subaccountName := ""
    minerNameWithDot := ""
    stratumSubscribeRequest := none
    stratumAuthorizeRequest := none
    versionMask := 0 }

/-- A sample upstream-authorize context: sub-account `alice`, miner `rig1`,
coin `btc` with a configured server entry whose user suffix is `btc`. -/
def sampleAuthCtx : ServerAuthCtx :=
  { fullWorkerName := "alice.rig1"
    subaccountName := "alice"
    minerNameWithDot := ".rig1"
    miningCoin := "btc"
    stratumServerInfoMap := [("btc", ⟨"cn.ss.btc.com:1800", "btc"⟩)] }

/-- A sample Zookeeper manager with one live watcher holding one delivery
channel. -/
def sampleZkMgr : ZookeeperManager :=
  ⟨[("/switcher/alice", ⟨"/switcher/alice", "btc", [(7, 0)]⟩)], 1⟩

/-! ## Basic allocator lemmas -/

theorem findClearIdx_not_mem {bits : Finset ℕ} {mask fuel i idx : ℕ}
    (h : findClearIdx bits mask fuel i = some idx) : idx ∉ bits := by
  induction fuel generalizing i with
  | zero => simp [findClearIdx] at h
  | succ n ih =>
      rw [findClearIdx] at h
      by_cases hi : i ∈ bits
      · rw [if_pos hi] at h
        exact ih h
      · rw [if_neg hi] at h
        cases h
        exact hi

/-- Distance-based termination of the scan loop: if a clear in-range bit
exists, the loop starting anywhere in range finds a clear bit within the
given fuel. -/
theorem findClearIdx_succeeds_of_dist {bits : Finset ℕ} {k : ℕ} (j : ℕ)
    (hj : j < 2 ^ k) (hjc : j ∉ bits) :
    ∀ d s fuel, s < 2 ^ k → (if s ≤ j then j - s else j + 2 ^ k - s) = d →
      d < fuel → ∃ idx, findClearIdx bits (2 ^ k - 1) fuel s = some idx := by
  intro d
  induction d with
  | zero =>
      intro s fuel hs hd hfuel
      have hsj : s = j := by
        by_cases hle : s ≤ j
        · rw [if_pos hle] at hd; omega
        · rw [if_neg hle] at hd; omega
      obtain ⟨f, rfl⟩ : ∃ f, fuel = f + 1 := ⟨fuel - 1, by omega⟩
      refine ⟨s, ?_⟩
      rw [findClearIdx, if_neg (hsj ▸ hjc)]
  | succ d ih =>
      intro s fuel hs hd hfuel
      obtain ⟨f, rfl⟩ : ∃ f, fuel = f + 1 := ⟨fuel - 1, by omega⟩
      by_cases hsb : s ∈ bits
      · have hstep : (s + 1) &&& (2 ^ k - 1) = (s + 1) % 2 ^ k :=
          Nat.and_pow_two_sub_one_eq_mod (s + 1) k
        have hsj : s ≠ j := fun h => hjc (h ▸ hsb)
        have hrec : ∃ idx,
            findClearIdx bits (2 ^ k - 1) f ((s + 1) % 2 ^ k) = some idx := by
          by_cases hwrap : s + 1 = 2 ^ k
          · have h0 : (s + 1) % 2 ^ k = 0 := by rw [hwrap, Nat.mod_self]
            rw [h0]
            refine ih 0 f (by positivity) ?_ ?_
            · have : ¬ s ≤ j := by omega
              rw [if_neg this] at hd
              rw [if_pos (Nat.zero_le j)]
              omega
            · omega
          · have h1 : (s + 1) % 2 ^ k = s + 1 := Nat.mod_eq_of_lt (by omega)
            rw [h1]
            refine ih (s + 1) f (by omega) ?_ (by omega)
            by_cases hle : s ≤ j
            · have hslt : s < j := by omega
              rw [if_pos hle] at hd
              rw [if_pos (by omega)]
              omega
            · rw [if_neg hle] at hd
              rw [if_neg (by omega)]
              omega
        obtain ⟨idx, hidx⟩ := hrec
        refine ⟨idx, ?_⟩
        rw [findClearIdx, if_pos hsb, hstep]
        exact hidx
      · exact ⟨s, by rw [findClearIdx, if_neg hsb]⟩

/-- With fuel `2 ^ k + 1`, the scan loop succeeds from any start (in range or
not) as soon as some in-range bit is clear. -/
theorem findClearIdx_succeeds {bits : Finset ℕ} {k : ℕ} (j s : ℕ)
    (hj : j < 2 ^ k) (hjc : j ∉ bits) :
    ∃ idx, findClearIdx bits (2 ^ k - 1) (2 ^ k + 1) s = some idx := by
  by_cases hsb : s ∈ bits
  · have hstep : (s + 1) &&& (2 ^ k - 1) = (s + 1) % 2 ^ k :=
      Nat.and_pow_two_sub_one_eq_mod (s + 1) k
    have hs' : (s + 1) % 2 ^ k < 2 ^ k := Nat.mod_lt _ (by positivity)
    have hd : (if (s + 1) % 2 ^ k ≤ j then j - (s + 1) % 2 ^ k
        else j + 2 ^ k - (s + 1) % 2 ^ k) < 2 ^ k := by
      by_cases hle : (s + 1) % 2 ^ k ≤ j
      · rw [if_pos hle]; omega
      · rw [if_neg hle]; omega
    obtain ⟨idx, hidx⟩ := findClearIdx_succeeds_of_dist j hj hjc
      _ ((s + 1) % 2 ^ k) (2 ^ k) hs' rfl hd
    refine ⟨idx, ?_⟩
    rw [findClearIdx, if_pos hsb, hstep]
    exact hidx
  · exact ⟨s, by rw [findClearIdx, if_neg hsb]⟩

/-- If the count (= number of set bits) is not above the mask, some in-range
bit is clear. -/
theorem exists_clear_bit {bits : Finset ℕ} {k : ℕ}
    (hcard : bits.card ≤ 2 ^ k - 1) : ∃ j, j < 2 ^ k ∧ j ∉ bits := by
  by_contra h
  push_neg at h
  have hsub : Finset.range (2 ^ k) ⊆ bits := fun x hx =>
    h x (Finset.mem_range.mp hx)
  have := Finset.card_le_card hsub
  rw [Finset.card_range] at this
  have hpos : 0 < 2 ^ k := by positivity
  omega

/-- A successful allocation step: when the manager is not full and its count
equals the number of set bits, `AllocSessionID` returns a fresh index OR-ed
under the server-ID prefix and sets exactly that bit. -/
theorem AllocSessionID_ok {m : SessionIDManager} {k : ℕ}
    (hmask : m.sessionIDMask = 2 ^ k - 1)
    (hcount : m.count = m.sessionIDs.card)
    (hnotfull : isFullWithoutLock m = false) :
    ∃ idx m', AllocSessionID m = some (.ok (m.serverID ||| idx, m')) ∧
      idx ∉ m.sessionIDs ∧
      m' = { m with
              sessionIDs := insert idx m.sessionIDs
              count := m.count + 1
              allocIDx := ((idx + m.allocInterval) % 2 ^ 32) &&& m.sessionIDMask } := by
  have hle : m.count ≤ m.sessionIDMask := by
    simp only [isFullWithoutLock, decide_eq_false_iff_not, not_lt] at hnotfull
    exact hnotfull
  have hcard : m.sessionIDs.card ≤ 2 ^ k - 1 := by rw [← hcount, ← hmask]; exact hle
  obtain ⟨j, hj, hjc⟩ := exists_clear_bit hcard
  have hfuel : 2 ^ k - 1 + 2 = 2 ^ k + 1 := by
    have : 0 < 2 ^ k := by positivity
    omega
  obtain ⟨idx, hidx⟩ := findClearIdx_succeeds j m.allocIDx hj hjc
  have hfind : findClearIdx m.sessionIDs m.sessionIDMask (m.sessionIDMask + 2) m.allocIDx
      = some idx := by rw [hmask, hfuel]; exact hidx
  refine ⟨idx, _, ?_, findClearIdx_not_mem hfind, rfl⟩
  rw [AllocSessionID, if_neg (by rw [hnotfull]; exact Bool.false_ne_true), hfind]

/-- Iterated allocation succeeds while the index space has room, and the
count tracks the number of set bits. -/
theorem allocN_ok {k : ℕ} :
    ∀ (n : ℕ) (m : SessionIDManager), m.sessionIDMask = 2 ^ k - 1 →
      m.count = m.sessionIDs.card → m.count + n ≤ 2 ^ k →
      ∃ m', allocN n m = some m' ∧ m'.sessionIDMask = 2 ^ k - 1 ∧
        m'.count = m'.sessionIDs.card ∧ m'.count = m.count + n := by
  intro n
  induction n with
  | zero => exact fun m hmask hcount _ => ⟨m, rfl, hmask, hcount, rfl⟩
  | succ n ih =>
      intro m hmask hcount hroom
      have hpos : 0 < 2 ^ k := by positivity
      have hnotfull : isFullWithoutLock m = false := by
        simp only [isFullWithoutLock, decide_eq_false_iff_not, not_lt, hmask]
        omega
      obtain ⟨idx, m', halloc, hfresh, hm'⟩ := AllocSessionID_ok hmask hcount hnotfull
      have hcard' : m'.count = m'.sessionIDs.card := by
        rw [hm']
        simp only [Finset.card_insert_of_not_mem hfresh]
        omega
      have hmask' : m'.sessionIDMask = 2 ^ k - 1 := by rw [hm']; exact hmask
      have hcount' : m'.count = m.count + 1 := by rw [hm']
      obtain ⟨m'', hrun, h1, h2, h3⟩ := ih m' hmask' hcard' (by omega)
      refine ⟨m'', ?_, h1, h2, by omega⟩
      rw [allocN, halloc]
      exact hrun

/-- C1: the claim says an ID collision during upgrade resume aborts that
resume with no session constructed or run.  The code disagrees: after
`NewSessionIDManager(1, 24)` and a first successful `ResumeSessionID` of the
ID `0x1000005`, a second `ResumeStratumSession` for the very same session
data has its `ResumeSessionID` fail with `ErrSessionIDOccupied`, yet the
function still constructs and runs a session (the error is only logged;
StratumSessionManager.go lines 245-248 lack a `return`). -/
theorem resumeStratumSession_runs_despite_occupied_id :
    NewSessionIDManager 1 24 = some btcMgr0 ∧
    ResumeSessionID btcMgr0 (1 <<< 24 ||| 5) = .ok btcMgr1 ∧
    ResumeSessionID btcMgr1 (1 <<< 24 ||| 5) = .error () ∧
    ResumeStratumSession btcMgr1 resumeConnOK (1 <<< 24 ||| 5) = (btcMgr1, true) := by
  exact ⟨by decide, by rfl, by rfl, by decide⟩

/-- C2: the claim says every ID returned by `AllocSessionID`, after any
sequence of operations, satisfies `s >> indexBits == configuredServerID`.
The code disagrees: on the Ethereum configuration (`indexBits = 16`,
`allocInterval = 256`, server ID 2), resuming the legitimately allocatable
ID `0x2FFFF` moves the cursor to `0xFFFF + 256 = 0x100FF` with no masking
(SessionIDManager.go line 128), and the next `AllocSessionID` then hands out
`0x20000 ||| 0x100FF = 0x300FF`, whose high bits are `3`, not the configured
server ID `2`.  (The claim's other conjunct, `s & indexMask < 1 << indexBits`,
does hold here.) -/
theorem allocSessionID_breaks_serverID_prefix_after_resume :
    (NewSessionIDManager 2 16).map (fun m => setAllocInterval m 256) = some ethMgr0 ∧
    ResumeSessionID ethMgr0 (2 <<< 16 ||| 65535) = .ok ethMgr1 ∧
    AllocSessionID ethMgr1 = some (.ok (196863, ethMgr2)) ∧
    196863 >>> 16 = 3 ∧ ethMgr0.serverID >>> 16 = 2 ∧
    196863 &&& ethMgr0.sessionIDMask < 2 ^ 16 := by
  exact ⟨by decide, by rfl, by rfl, by decide, by decide, by decide⟩

/-- C3: when the allocator is not full, `AllocSessionID` returns an ID whose
index bit was clear and is set by the call, formed by OR-ing the server-ID
prefix with the found index; and, starting from a fresh manager, exactly
`1 << indexBits` allocations fill the allocator, after which the next call
returns the `ErrSessionIDFull` error with the bit-set unchanged (the error
branch returns the state untouched).  The hypotheses `count = card` hold in
every reachable state (the count is incremented exactly when a clear bit is
set and decremented exactly when a set bit is cleared). -/
theorem allocSessionID_fresh_and_full :
    (∀ (m : SessionIDManager) (k : ℕ),
        m.sessionIDMask = 2 ^ k - 1 →
        m.count = m.sessionIDs.card →
        isFullWithoutLock m = false →
        ∃ idx m', AllocSessionID m = some (.ok (m.serverID ||| idx, m')) ∧
          idx ∉ m.sessionIDs ∧ m'.sessionIDs = insert idx m.sessionIDs) ∧
    (∀ (serverID indexBits : ℕ) (m₀ : SessionIDManager),
        NewSessionIDManager serverID indexBits = some m₀ →
        ∃ m', allocN (2 ^ indexBits) m₀ = some m' ∧
          isFullWithoutLock m' = true ∧
          AllocSessionID m' = some (.error m')) := by
  constructor
  · intro m k hmask hcount hnotfull
    obtain ⟨idx, m', halloc, hfresh, hm'⟩ := AllocSessionID_ok hmask hcount hnotfull
    exact ⟨idx, m', halloc, hfresh, by rw [hm']⟩
  · intro serverID indexBits m₀ h
    rw [NewSessionIDManager] at h
    split_ifs at h
    injection h with h
    subst h
    obtain ⟨m', hrun, hmask', hcard', hcount'⟩ :=
      allocN_ok (k := indexBits) (2 ^ indexBits)
        ⟨serverID <<< indexBits, ∅, 0, 128, 0, indexBits, 2 ^ indexBits - 1⟩
        rfl rfl (by simp)
    have hpos : 0 < 2 ^ indexBits := by positivity
    have hfull : isFullWithoutLock m' = true := by
      simp only [isFullWithoutLock, decide_eq_true_eq, hmask']
      simp only [Finset.card_empty] at hcount'
      omega
    refine ⟨m', hrun, hfull, ?_⟩
    rw [AllocSessionID, if_pos hfull]

/-- Witness for `allocSessionID_fresh_and_full`: the first part applied to
the concrete resumed Bitcoin manager `btcMgr1`, the second to the fresh
manager `NewSessionIDManager(1, 1)`. -/
theorem allocSessionID_fresh_and_full_witness :
    (∃ idx m', AllocSessionID btcMgr1 = some (.ok (btcMgr1.serverID ||| idx, m')) ∧
      idx ∉ btcMgr1.sessionIDs ∧ m'.sessionIDs = insert idx btcMgr1.sessionIDs) ∧
    (∃ m', allocN (2 ^ 1) ⟨1 <<< 1, ∅, 0, 128, 0, 1, 2 ^ 1 - 1⟩ = some m' ∧
      isFullWithoutLock m' = true ∧
      AllocSessionID m' = some (.error m')) :=
  ⟨allocSessionID_fresh_and_full.1 btcMgr1 24 (by decide) (by decide) (by decide),
   allocSessionID_fresh_and_full.2 1 1 _ (by decide)⟩

/-- Behavior of the retry loop: the number of calls is bounded by the
remaining iterations, success happens exactly when some permitted attempt
succeeds, and when every permitted attempt fails the loop performs all of
them, sleeping after each. -/
theorem reconnectTryLoop_spec (connectOK : ℕ → Bool) :
    ∀ n calls sleeps,
      ((reconnectTryLoop connectOK n calls sleeps).1 ≤ calls + n) ∧
      ((reconnectTryLoop connectOK n calls sleeps).2.2 = true ↔
        ∃ i, i < n ∧ connectOK (calls + i) = true) ∧
      ((∀ i, i < n → connectOK (calls + i) = false) →
        reconnectTryLoop connectOK n calls sleeps = (calls + n, sleeps + n, false)) := by
  intro n
  induction n with
  | zero =>
      intro calls sleeps
      exact ⟨by simp [reconnectTryLoop], by simp [reconnectTryLoop], fun _ => by
        simp [reconnectTryLoop]⟩
  | succ n ih =>
      intro calls sleeps
      by_cases h : connectOK calls = true
      · have hstep : reconnectTryLoop connectOK (n + 1) calls sleeps =
            (calls + 1, sleeps, true) := by rw [reconnectTryLoop, if_pos h]
        refine ⟨by rw [hstep]; omega, ?_, ?_⟩
        · rw [hstep]
          exact ⟨fun _ => ⟨0, by omega, by simpa using h⟩, fun _ => rfl⟩
        · intro hall
          have h0 := hall 0 (by omega)
          rw [Nat.add_zero] at h0
          rw [h0] at h
          cases h
      · have hstep : reconnectTryLoop connectOK (n + 1) calls sleeps =
            reconnectTryLoop connectOK n (calls + 1) (sleeps + 1) := by
          rw [reconnectTryLoop, if_neg h]
        obtain ⟨ih1, ih2, ih3⟩ := ih (calls + 1) (sleeps + 1)
        refine ⟨by rw [hstep]; omega, ?_, ?_⟩
        · rw [hstep, ih2]
          constructor
          · rintro ⟨i, hi, hc⟩
            exact ⟨i + 1, by omega, by rw [← hc]; ring_nf⟩
          · rintro ⟨i, hi, hc⟩
            match i, hi, hc with
            | 0, _, hc =>
                rw [Nat.add_zero] at hc
                rw [hc] at h
                cases h rfl
            | i + 1, hi, hc => exact ⟨i, by omega, by rw [← hc]; ring_nf⟩
        · intro hall
          rw [hstep, ih3 (fun i hi => by
            have := hall (i + 1) (by omega)
            rw [← this]; ring_nf)]
          have e1 : calls + 1 + n = calls + (n + 1) := by omega
          have e2 : sleeps + 1 + n = sleeps + (n + 1) := by omega
          rw [e1, e2]

/-- C4 counterexample: with every connect attempt failing, one reconnect
episode calls `connectStratumServer` 11 times (and sleeps 11 seconds), so
the claimed bound of at most 10 calls is false: the Go loop runs for
`i = -1, 0, ..., 9`. -/
theorem reconnect_eleven_calls_counterexample :
    (reconnectStratumServerModel (fun _ => false) retryTimeWhenServerDown).connectCalls = 11 ∧
    ¬ (reconnectStratumServerModel (fun _ => false) retryTimeWhenServerDown).connectCalls ≤ 10 ∧
    (reconnectStratumServerModel (fun _ => false) retryTimeWhenServerDown).sleeps = 11 := by
  exact ⟨by decide, by decide, by decide⟩

/-- C4 (amended): in every reconnect episode `reconnectStratumServer` calls
`connectStratumServer` at most 11 times (one initial attempt plus up to
`retryTimeWhenServerDown = 10` retries), sleeping one second after each
failed attempt, and it stops the session precisely when every attempt
fails (on success the session goes back to running). -/
theorem reconnect_at_most_eleven :
    ∀ connectOK : ℕ → Bool,
      (reconnectStratumServerModel connectOK retryTimeWhenServerDown).connectCalls ≤ 11 ∧
      ((reconnectStratumServerModel connectOK retryTimeWhenServerDown).stopped = true ↔
        ∀ i, i < 11 → connectOK i = false) ∧
      ((∀ i, i < 11 → connectOK i = false) →
        reconnectStratumServerModel connectOK retryTimeWhenServerDown =
          ⟨11, 11, true, false⟩) := by
  intro connectOK
  obtain ⟨h1, h2, h3⟩ := reconnectTryLoop_spec connectOK 11 0 0
  simp only [Nat.zero_add] at h1 h2 h3
  refine ⟨h1, ?_, ?_⟩
  · show (!(reconnectTryLoop connectOK 11 0 0).2.2) = true ↔ _
    rw [Bool.not_eq_true']
    constructor
    · intro hfalse i hi
      by_contra hbad
      rw [Bool.not_eq_false] at hbad
      have := h2.mpr ⟨i, hi, hbad⟩
      rw [this] at hfalse
      cases hfalse
    · intro hall
      by_contra hbad
      rw [Bool.not_eq_false] at hbad
      obtain ⟨i, hi, hc⟩ := h2.mp hbad
      rw [hall i hi] at hc
      cases hc
  · intro hall
    show (let r := reconnectTryLoop connectOK 11 0 0; ReconnectOut.mk r.1 r.2.1 (!r.2.2) r.2.2) = _
    rw [h3 hall]
    rfl

/-- Witness for `reconnect_at_most_eleven`: its call-count bound applied to
an always-succeeding connect outcome, and its all-fail clause applied to the
always-failing one, the hypothesis discharged by computation. -/
theorem reconnect_at_most_eleven_witness :
    (reconnectStratumServerModel (fun _ => true) retryTimeWhenServerDown).connectCalls ≤ 11 ∧
    reconnectStratumServerModel (fun _ => false) retryTimeWhenServerDown = ⟨11, 11, true, false⟩ :=
  ⟨(reconnect_at_most_eleven (fun _ => true)).1,
   (reconnect_at_most_eleven (fun _ => false)).2.2 (fun _ _ => by decide)⟩

/-- C5 counterexample: `switchCoinType` called on a session that is
`StatStoped` (so the gate abstains) still changes the session's mining coin
from `"btc"` to `"bch"`, because line 1410 assigns `session.miningCoin`
before the lock is taken and before either gate check. -/
theorem switchCoinType_changes_coin_when_stopped :
    switchCoinType (fun _ => true) ⟨.statStoped, 0, "btc"⟩ "bch" 0 =
      ⟨⟨.statStoped, 0, "bch"⟩, false⟩ ∧
    (switchCoinType (fun _ => true) ⟨.statStoped, 0, "btc"⟩ "bch" 0).final ≠
      (⟨.statStoped, 0, "btc"⟩ : SessionLifeState) := by
  exact ⟨by decide, by decide⟩

/-- C5 (amended): when `switchCoinType(newCoin, epoch)` is called on a
session that is not `Running` or whose reconnect counter differs from the
given epoch, the running state and the reconnect counter are left unchanged
but the mining coin has already been set to the new coin (it is assigned
before the gate); only when the state is `Running` and the epoch matches
does it enter the reconnect path, having set the state to `Reconnecting`
and incremented the reconnect counter by one. -/
theorem switchCoinType_gate :
    ∀ (connectOK : ℕ → Bool) (s : SessionLifeState) (newCoin : String) (epoch : ℕ),
      ((s.runningStat ≠ .statRunning ∨ epoch ≠ s.reconnectCounter) →
        switchCoinType connectOK s newCoin epoch =
          ⟨{ s with miningCoin := newCoin }, false⟩) ∧
      (s.runningStat = .statRunning → epoch = s.reconnectCounter →
        (switchCoinType connectOK s newCoin epoch).enteredReconnecting = true ∧
        (switchCoinType connectOK s newCoin epoch).final.reconnectCounter =
          s.reconnectCounter + 1 ∧
        (switchCoinType connectOK s newCoin epoch).final.miningCoin = newCoin) := by
  intro connectOK s newCoin epoch
  constructor
  · intro habstain
    rw [switchCoinType]
    rcases habstain with hstat | hepoch
    · rw [if_pos]
      exact hstat
    · by_cases hstat : s.runningStat ≠ .statRunning
      · rw [if_pos hstat]
      · rw [if_neg hstat, if_pos hepoch]
  · intro hstat hepoch
    rw [switchCoinType]
    have hrun : ¬ ({ s with miningCoin := newCoin } : SessionLifeState).runningStat ≠
        .statRunning := by simpa using hstat
    rw [if_neg hrun, if_neg (by simpa using hepoch)]
    by_cases hstop :
        (reconnectStratumServerModel connectOK retryTimeWhenServerDown).stopped = true
    · rw [if_pos hstop]
      exact ⟨rfl, rfl, rfl⟩
    · rw [if_neg hstop]
      exact ⟨rfl, rfl, rfl⟩

/-- Witness for `switchCoinType_gate`: the abstain clause at a stopped
session, and the transition clause at a running session with matching
epoch. -/
theorem switchCoinType_gate_witness :
    switchCoinType (fun _ => true) ⟨.statStoped, 3, "btc"⟩ "bch" 3 =
      ⟨⟨.statStoped, 3, "bch"⟩, false⟩ ∧
    ((switchCoinType (fun _ => true) ⟨.statRunning, 5, "btc"⟩ "bch" 5).enteredReconnecting = true ∧
      (switchCoinType (fun _ => true) ⟨.statRunning, 5, "btc"⟩ "bch" 5).final.reconnectCounter = 6 ∧
      (switchCoinType (fun _ => true) ⟨.statRunning, 5, "btc"⟩ "bch" 5).final.miningCoin = "bch") :=
  ⟨(switchCoinType_gate (fun _ => true) ⟨.statStoped, 3, "btc"⟩ "bch" 3).1
      (Or.inl (by decide)),
   (switchCoinType_gate (fun _ => true) ⟨.statRunning, 5, "btc"⟩ "bch" 5).2 rfl rfl⟩

/-- C6: in `stratumHandleRequest`, a `mining.subscribe` received when the
handshake state is not `Connected` yields error 102 (Duplicate Subscribed)
with the session and state unchanged; a `mining.authorize` received when the
state is not `Subscribed` yields error 101 (Need Subscribed) with the
session and state unchanged; and an `eth_submitLogin` received when the
protocol variant is `EthereumProxy` first performs the implicit subscribe —
the state becomes `Subscribed`, the synthesized ETHProxy subscribe request
is stored and the JSON-RPC version becomes 2 — and is then processed by the
same authorize branch that `mining.authorize` dispatches to. -/
theorem stratumHandleRequest_gating :
    (∀ (cfg : MgrConfig) (chainType : ChainType) (sess : SessionState)
        (request : JSONRPCRequest) (stat : AuthorizeStat),
        request.method = "mining.subscribe" → stat ≠ .statConnected →
        stratumHandleRequest cfg chainType sess request stat =
          ⟨none, some StratumErrDuplicateSubscribed, sess, stat⟩) ∧
    (∀ (cfg : MgrConfig) (chainType : ChainType) (sess : SessionState)
        (request : JSONRPCRequest) (stat : AuthorizeStat),
        request.method = "mining.authorize" → stat ≠ .statSubScribed →
        stratumHandleRequest cfg chainType sess request stat =
          ⟨none, some StratumErrNeedSubscribed, sess, stat⟩) ∧
    (∀ (cfg : MgrConfig) (chainType : ChainType) (sess : SessionState)
        (request : JSONRPCRequest) (stat : AuthorizeStat),
        request.method = "eth_submitLogin" → sess.protocolType = .ethereumProxy →
        stratumHandleRequest cfg chainType sess request stat =
          stratumHandleAuthorize cfg
            { sess with stratumSubscribeRequest := some ethProxySubscribeRequest,
                        jsonRPCVersion := 2 }
            request .statSubScribed) := by
  refine ⟨?_, ?_, ?_⟩
  · intro cfg chainType sess request stat hm hstat
    obtain ⟨rid, method, params, worker⟩ := request
    simp only at hm
    subst hm
    rw [stratumHandleRequest]
    simp only [if_pos hstat]
  · intro cfg chainType sess request stat hm hstat
    obtain ⟨rid, method, params, worker⟩ := request
    simp only at hm
    subst hm
    rw [stratumHandleRequest, stratumHandleAuthorize]
    simp only [if_pos hstat]
  · intro cfg chainType sess request stat hm hproto
    obtain ⟨rid, method, params, worker⟩ := request
    simp only at hm
    subst hm
    rw [stratumHandleRequest]
    simp only [hproto, if_pos]

/-- Witness for `stratumHandleRequest_gating`: each clause applied at a
concrete request/state, the hypotheses discharged by computation. -/
theorem stratumHandleRequest_gating_witness :
    (stratumHandleRequest sampleCfg .bitcoin sampleSession
        ⟨.num 1, "mining.subscribe", [], ""⟩ .statSubScribed =
      ⟨none, some StratumErrDuplicateSubscribed, sampleSession, .statSubScribed⟩) ∧
    (stratumHandleRequest sampleCfg .bitcoin sampleSession
        ⟨.num 2, "mining.authorize", [.str "alice.rig1", .str "x"], ""⟩ .statConnected =
      ⟨none, some StratumErrNeedSubscribed, sampleSession, .statConnected⟩) ∧
    (stratumHandleRequest sampleCfg .ethereum sampleSession
        ⟨.num 3, "eth_submitLogin", [.str "alice.rig1"], ""⟩ .statConnected =
      stratumHandleAuthorize sampleCfg
        { sampleSession with stratumSubscribeRequest := some ethProxySubscribeRequest,
                             jsonRPCVersion := 2 }
        ⟨.num 3, "eth_submitLogin", [.str "alice.rig1"], ""⟩ .statSubScribed) :=
  ⟨stratumHandleRequest_gating.1 sampleCfg .bitcoin sampleSession _ _ rfl (by decide),
   stratumHandleRequest_gating.2.1 sampleCfg .bitcoin sampleSession _ _ rfl (by decide),
   stratumHandleRequest_gating.2.2 sampleCfg .ethereum sampleSession _ _ rfl (by decide)⟩

theorem Uint32ToHex_length (n : ℕ) : (Uint32ToHex n).length = 8 := by
  simp [Uint32ToHex, String.length]

theorem isHexChar_digitChar : ∀ m, m < 16 → isHexChar (Nat.digitChar m) = true := by
  decide

theorem Uint32ToHex_hex (n : ℕ) : ∀ c ∈ (Uint32ToHex n).data, isHexChar c = true := by
  intro c hc
  simp only [Uint32ToHex, List.mem_map, List.mem_range] at hc
  obtain ⟨i, _, rfl⟩ := hc
  exact isHexChar_digitChar _ (Nat.mod_lt _ (by norm_num))

theorem goStringSlice_length (s : String) (lo hi : ℕ) :
    (goStringSlice s lo hi).length = min (hi - lo) (s.length - lo) := by
  show (List.take (hi - lo) (List.drop lo s.data)).length = _
  rw [List.length_take, List.length_drop]
  rfl

/-- `parseSubscribeRequest` never changes the session-ID string. -/
theorem parseSubscribeRequest_sessionIDString (chainType : ChainType)
    (sess : SessionState) (request : JSONRPCRequest) :
    ((parseSubscribeRequest chainType sess request).2.2).sessionIDString =
      sess.sessionIDString := by
  rcases chainType <;> simp only [parseSubscribeRequest] <;> (repeat' split) <;> rfl

/-- When `parseSubscribeRequest` on the Ethereum chain leaves the session in
the NiceHash protocol variant, its result is the synthesized NiceHash
subscribe response, whose extranonce string is the session-ID string,
truncated to its first 4 characters for a NiceHash client. -/
theorem parseSubscribeRequest_ethereum_result (sess : SessionState)
    (request : JSONRPCRequest) (res : JVal) (sess' : SessionState) :
    parseSubscribeRequest .ethereum sess request = (some res, none, sess') →
    sess'.protocolType = .ethereumStratumNiceHash →
    res = .arr [.arr [.str "mining.notify", .str sess'.sessionIDString,
                      .str ethereumStratumNiceHashVersion],
                .str (if sess'.isNiceHashClient then goStringSlice sess'.sessionIDString 0 4
                      else sess'.sessionIDString)] := by
  intro hparse hproto
  simp only [parseSubscribeRequest] at hparse
  split at hparse
  · simp only [Prod.mk.injEq, Option.some.injEq] at hparse
    obtain ⟨hres, -, hsess⟩ := hparse
    subst hsess
    exact hres.symm
  · simp only [Prod.mk.injEq, Option.some.injEq] at hparse
    obtain ⟨-, -, hsess⟩ := hparse
    subst hsess
    exact absurd hproto (by assumption)

theorem sessionIDStringOf_bitcoin_length (sessionID : ℕ) :
    (sessionIDStringOf .bitcoin sessionID).length = 8 :=
  Uint32ToHex_length sessionID

theorem sessionIDStringOf_ethereum_length (sessionID : ℕ) :
    (sessionIDStringOf .ethereum sessionID).length = 6 := by
  show (goStringSlice (Uint32ToHex sessionID) 2 8).length = 6
  rw [goStringSlice_length, Uint32ToHex_length]
  decide

/-- C7: the extranonce string presented to the client is exactly 8 hex
characters for the Bitcoin chain type and exactly 6 hex characters for the
Ethereum chain type (`NewStratumSession`, StratumSession.go lines 163-175);
and in the synthesized NiceHash subscribe response, when the client is
identified as a NiceHash client, the extranonce is exactly the first 4
characters of the session-ID string, so exactly 4 hex characters
(`parseSubscribeRequest`, lines 466-477). -/
theorem extranonce_lengths :
    (∀ sessionID : ℕ, (sessionIDStringOf .bitcoin sessionID).length = 8 ∧
        ∀ c ∈ (sessionIDStringOf .bitcoin sessionID).data, isHexChar c = true) ∧
    (∀ sessionID : ℕ, (sessionIDStringOf .ethereum sessionID).length = 6 ∧
        ∀ c ∈ (sessionIDStringOf .ethereum sessionID).data, isHexChar c = true) ∧
    (∀ (sess : SessionState) (request : JSONRPCRequest) (res : JVal) (sess' : SessionState),
        sess.sessionIDString = sessionIDStringOf .ethereum sess.sessionID →
        parseSubscribeRequest .ethereum sess request = (some res, none, sess') →
        sess'.protocolType = .ethereumStratumNiceHash →
        sess'.isNiceHashClient = true →
        res = .arr [.arr [.str "mining.notify", .str sess.sessionIDString,
                          .str ethereumStratumNiceHashVersion],
                    .str (goStringSlice sess.sessionIDString 0 4)] ∧
        (goStringSlice sess.sessionIDString 0 4).length = 4) := by
  refine ⟨?_, ?_, ?_⟩
  · exact fun sessionID => ⟨sessionIDStringOf_bitcoin_length sessionID,
      Uint32ToHex_hex sessionID⟩
  · intro sessionID
    refine ⟨sessionIDStringOf_ethereum_length sessionID, ?_⟩
    intro c hc
    have hc' : c ∈ (Uint32ToHex sessionID).data :=
      List.drop_subset 2 _ (List.take_subset 6 _ hc)
    exact Uint32ToHex_hex sessionID c hc'
  · intro sess request res sess' hsid hparse hproto hnice
    have hpres := parseSubscribeRequest_sessionIDString .ethereum sess request
    rw [hparse] at hpres
    have hres := parseSubscribeRequest_ethereum_result sess request res sess' hparse hproto
    rw [hnice, hpres] at hres
    simp only [if_true] at hres
    refine ⟨hres, ?_⟩
    rw [goStringSlice_length, hsid, sessionIDStringOf_ethereum_length]
    decide

/-- Witness for `extranonce_lengths`: its three clauses at the concrete
session ID `0x20080` and, for the third, at `sampleSession` handling the
NiceHash subscribe request of spec scenario 5. -/
theorem extranonce_lengths_witness :
    ((sessionIDStringOf .bitcoin 131200).length = 8 ∧
      ∀ c ∈ (sessionIDStringOf .bitcoin 131200).data, isHexChar c = true) ∧
    ((sessionIDStringOf .ethereum 131200).length = 6 ∧
      ∀ c ∈ (sessionIDStringOf .ethereum 131200).data, isHexChar c = true) ∧
    ((parseSubscribeRequest .ethereum sampleSession
        ⟨.num 1, "mining.subscribe",
         [.str "nicehash/1.0", .str "EthereumStratum/1.0.0"], ""⟩).2.2.protocolType =
       .ethereumStratumNiceHash ∧
     (parseSubscribeRequest .ethereum sampleSession
        ⟨.num 1, "mining.subscribe",
         [.str "nicehash/1.0", .str "EthereumStratum/1.0.0"], ""⟩).2.2.isNiceHashClient = true ∧
     (goStringSlice sampleSession.sessionIDString 0 4).length = 4) := by
  refine ⟨extranonce_lengths.1 131200, extranonce_lengths.2.1 131200, by decide, by decide, ?_⟩
  exact (extranonce_lengths.2.2 sampleSession
    ⟨.num 1, "mining.subscribe", [.str "nicehash/1.0", .str "EthereumStratum/1.0.0"], ""⟩
    _ _ rfl rfl (by decide) (by decide)).2

theorem stripEthAddr_dot_head (t : List Char) :
    StripEthAddrFromFullName ⟨'.' :: t⟩ = ⟨'.' :: t⟩ := by
  rw [StripEthAddrFromFullName]
  split
  · rename_i rest h
    simp at h
  · rfl

theorem contains_dot_head (t : List Char) : ('.' :: t).contains '.' = true := by
  simp [List.contains_cons]

theorem findIdx_dot_head (t : List Char) : ('.' :: t).findIdx (· = '.') = 0 := by
  simp [List.findIdx_cons]

theorem dot_append (s : String) : "." ++ s = ⟨'.' :: s.data⟩ := by
  cases s
  rfl

/-- Whatever the protocol variant and `worker` field, assembling the worker
name from the parameter `"."` yields a full worker name that starts with a
dot, all other session fields unchanged. -/
theorem assembleWorkerName_dot (sess : SessionState) (request : JSONRPCRequest) :
    ∃ t, assembleWorkerName sess request "." =
      { sess with fullWorkerName := ⟨'.' :: t⟩ } := by
  have hfw : FilterWorkerName "." = "." := by decide
  simp only [assembleWorkerName, hfw]
  by_cases hp : sess.protocolType ≠ .bitcoinStratum
  · simp only [if_pos hp]
    by_cases hw : request.worker ≠ ""
    · simp only [if_pos hw]
      refine ⟨'.' :: (FilterWorkerName request.worker).data, ?_⟩
      have happ : ("." ++ "." ++ FilterWorkerName request.worker : String) =
          ⟨'.' :: '.' :: (FilterWorkerName request.worker).data⟩ := by
        rw [String.append_assoc, dot_append, dot_append]
      rw [happ, stripEthAddr_dot_head]
    · simp only [if_neg hw]
      refine ⟨[], ?_⟩
      rw [show StripEthAddrFromFullName "." = "." from by decide]
  · simp only [if_neg hp]
    exact ⟨[], rfl⟩

/-- Splitting a full worker name that starts with a dot yields the
regularized empty sub-account name. -/
theorem splitWorkerName_dot_head (cfg : MgrConfig) (s : SessionState) (t : List Char)
    (hs : s.fullWorkerName = ⟨'.' :: t⟩) :
    splitWorkerName cfg s =
      { s with subaccountName := GetRegularSubaccountName cfg "",
               minerNameWithDot := ⟨'.' :: t⟩,
               fullWorkerName := GetRegularSubaccountName cfg "" ++ ⟨'.' :: t⟩ } := by
  rw [splitWorkerName, hs]
  simp only [contains_dot_head, findIdx_dot_head, List.take_zero, List.drop_zero,
    if_pos]

/-- C9: an authorize request whose `params[0]` is the one-character string
`"."` produces an empty sub-account name and yields error 105 (Sub-account
Name Cannot be Empty); the handshake state stays `Subscribed`, so the
session is not marked authorized.  The hypothesis — regularizing the empty
name yields the empty name — holds for every configuration in which the
case-insensitive index does not map the bare index path to a non-empty
name (in particular whenever `StratumServerCaseInsensitive` is set or the
index is disabled). -/
theorem authorize_dot_yields_105 :
    ∀ (cfg : MgrConfig) (chainType : ChainType) (sess : SessionState)
      (rid : JVal) (rest : List JVal) (worker : String),
      GetRegularSubaccountName cfg "" = "" →
      ∃ sess',
        stratumHandleRequest cfg chainType sess
          ⟨rid, "mining.authorize", .str "." :: rest, worker⟩ .statSubScribed =
          ⟨none, some StratumErrWorkerNameStartWrong, sess', .statSubScribed⟩ ∧
        sess'.subaccountName = "" := by
  intro cfg chainType sess rid rest worker hreg
  obtain ⟨t, ht⟩ := assembleWorkerName_dot
    { sess with stratumAuthorizeRequest :=
                          some (⟨rid, "mining.authorize", .str "." :: rest, worker⟩ : JSONRPCRequest) }
    ⟨rid, "mining.authorize", .str "." :: rest, worker⟩
  have hsplit := splitWorkerName_dot_head cfg
    (assembleWorkerName
      { sess with stratumAuthorizeRequest :=
                          some (⟨rid, "mining.authorize", .str "." :: rest, worker⟩ : JSONRPCRequest) }
      ⟨rid, "mining.authorize", .str "." :: rest, worker⟩ ".") t (by rw [ht])
  have hsub : (splitWorkerName cfg (assembleWorkerName
      { sess with stratumAuthorizeRequest :=
                          some (⟨rid, "mining.authorize", .str "." :: rest, worker⟩ : JSONRPCRequest) }
      ⟨rid, "mining.authorize", .str "." :: rest, worker⟩ ".")).subaccountName = "" := by
    rw [hsplit]
    exact hreg
  have hparse : parseAuthorizeRequest cfg sess
      ⟨rid, "mining.authorize", .str "." :: rest, worker⟩ =
      (none, some StratumErrWorkerNameStartWrong,
        splitWorkerName cfg (assembleWorkerName
          { sess with stratumAuthorizeRequest :=
                          some (⟨rid, "mining.authorize", .str "." :: rest, worker⟩ : JSONRPCRequest) }
          ⟨rid, "mining.authorize", .str "." :: rest, worker⟩ ".")) := by
    simp only [parseAuthorizeRequest]
    rw [if_pos (by rw [hsub]; decide)]
  refine ⟨_, ?_, hsub⟩
  show stratumHandleAuthorize cfg sess
    (⟨rid, "mining.authorize", .str "." :: rest, worker⟩ : JSONRPCRequest)
    .statSubScribed = _
  rw [stratumHandleAuthorize, if_neg (fun h => h rfl), hparse]

/-- Witness for `authorize_dot_yields_105`: the concrete authorize request
`params = [".", "x"]` on the sample configuration, whose regularizer maps
the empty name to itself. -/
theorem authorize_dot_yields_105_witness :
    GetRegularSubaccountName sampleCfg "" = "" ∧
    ∃ sess', stratumHandleRequest sampleCfg .bitcoin sampleSession
        ⟨.num 2, "mining.authorize", .str "." :: [.str "x"], ""⟩ .statSubScribed =
        ⟨none, some StratumErrWorkerNameStartWrong, sess', .statSubScribed⟩ ∧
      sess'.subaccountName = "" :=
  ⟨by decide,
   authorize_dot_yields_105 sampleCfg .bitcoin sampleSession (.num 2) [.str "x"] "" (by decide)⟩

/-- Messages that are not auth responses (and whose subscribe handling
succeeds) leave the authorize bookkeeping of the receive loop unchanged. -/
theorem serverAuthLoop_skip (ctx : ServerAuthCtx) :
    ∀ (pre rest : List ServerMessage) (sent : List String),
      (∀ m ∈ pre, isPreAuthOK m = true) →
      serverAuthLoop ctx (pre ++ rest) 0 false none sent =
        serverAuthLoop ctx rest 0 false none sent := by
  intro pre
  induction pre with
  | nil => intro rest sent _; rfl
  | cons m pre ih =>
      intro rest sent hpre
      have hm := hpre m (List.mem_cons_self m pre)
      have hpre' : ∀ x ∈ pre, isPreAuthOK x = true :=
        fun x hx => hpre x (List.mem_cons_of_mem m hx)
      cases m with
      | notify => exact ih rest sent hpre'
      | respConfigure => exact ih rest sent hpre'
      | respOtherID => exact ih rest sent hpre'
      | respSubscribe handleOK =>
          cases handleOK with
          | true => exact ih rest sent hpre'
          | false => cases hm
      | respAuth success => cases hm

/-- C8: during the upstream handshake the first `mining.authorize` carries
the unsuffixed full worker name; a second authorize — with worker name
`subaccount + "_" + userSuffix + minerNameWithDot` — is sent if and only if
the server's response to the first is not a success; the authorize response
forwarded to the client is the successful one if either succeeded; and the
user suffix defaults to the currency key when the coin has no configured
server entry.  The server is assumed to answer in request order: any
non-auth responses, then the response to each authorize in turn. -/
theorem second_authorize_iff :
    ∀ (ctx : ServerAuthCtx) (pre : List ServerMessage) (b1 b2 : Bool),
      (∀ m ∈ pre, isPreAuthOK m = true) →
      (serverSubscribeAndAuthorize ctx
          (pre ++ .respAuth b1 :: (if b1 then [] else [.respAuth b2]))).sentAuthNames =
        ctx.fullWorkerName ::
          (if b1 then [] else
            [ctx.subaccountName ++ "_" ++ getUserSuffix ctx ++ ctx.minerNameWithDot]) ∧
      (serverSubscribeAndAuthorize ctx
          (pre ++ .respAuth b1 :: (if b1 then [] else [.respAuth b2]))).forwarded =
        some (b1 || b2) ∧
      (assocLookup ctx.stratumServerInfoMap ctx.miningCoin = none →
        getUserSuffix ctx = ctx.miningCoin) := by
  intro ctx pre b1 b2 hpre
  have hskip := serverAuthLoop_skip ctx pre
    (.respAuth b1 :: (if b1 then [] else [.respAuth b2]))
    [authWorkerNameOf ctx false] hpre
  rw [serverSubscribeAndAuthorize, hskip]
  refine ⟨?_, ?_, ?_⟩
  · cases b1 with
    | true => rfl
    | false => cases b2 <;> rfl
  · cases b1 with
    | true => rfl
    | false => cases b2 <;> rfl
  · intro h
    rw [getUserSuffix, h]

/-- Witness for `second_authorize_iff`: the sample context with a passing
subscribe response, a failed first authorize and a successful second. -/
theorem second_authorize_iff_witness :
    (serverSubscribeAndAuthorize sampleAuthCtx
        [.respSubscribe true, .respAuth false, .respAuth true]).sentAuthNames =
      ["alice.rig1", "alice_btc.rig1"] ∧
    (serverSubscribeAndAuthorize sampleAuthCtx
        [.respSubscribe true, .respAuth false, .respAuth true]).forwarded = some true := by
  have h := second_authorize_iff sampleAuthCtx [.respSubscribe true] false true
    (by intro m hm; simp at hm; rw [hm]; rfl)
  exact ⟨by rw [(by rfl : ([.respSubscribe true, .respAuth false, .respAuth true] :
      List ServerMessage) = [.respSubscribe true] ++ .respAuth false ::
        (if false then [] else [.respAuth true]))] ; rw [h.1]; rfl,
    by rw [(by rfl : ([.respSubscribe true, .respAuth false, .respAuth true] :
      List ServerMessage) = [.respSubscribe true] ++ .respAuth false ::
        (if false then [] else [.respAuth true]))] ; rw [h.2.1]; rfl⟩

theorem find?_assocSet_of_any {α β : Type} [BEq α] [LawfulBEq α] (k : α) (v : β) :
    ∀ l : List (α × β), l.any (fun p => p.1 == k) = true →
      (l.map (fun p => if p.1 == k then (k, v) else p)).find? (fun p => p.1 == k) =
        some (k, v) := by
  intro l
  induction l with
  | nil => intro h; cases h
  | cons p l ih =>
      intro hany
      by_cases hk : (p.1 == k) = true
      · simp [hk]
      · simp only [List.map_cons, List.find?_cons, hk, if_neg, Bool.false_eq_true,
          not_false_iff]
        simp only [List.any_cons, hk, Bool.false_or] at hany
        exact ih hany

theorem find?_assocSet_of_not_any {α β : Type} [BEq α] [LawfulBEq α] (k : α) (v : β) :
    ∀ l : List (α × β), l.any (fun p => p.1 == k) = false →
      (l ++ [(k, v)]).find? (fun p => p.1 == k) = some (k, v) := by
  intro l
  induction l with
  | nil => simp
  | cons p l ih =>
      intro hany
      simp only [List.any_cons, Bool.or_eq_false_iff] at hany
      simp only [List.cons_append, List.find?_cons, hany.1, cond_false]
      exact ih hany.2

/-- Writing a key into the association-list map makes it the value that a
subsequent lookup of that key returns. -/
theorem assocLookup_assocSet {α β : Type} [BEq α] [LawfulBEq α]
    (l : List (α × β)) (k : α) (v : β) :
    assocLookup (assocSet l k v) k = some v := by
  rw [assocSet]
  by_cases hany : l.any (fun p => p.1 == k) = true
  · rw [if_pos hany, assocLookup, find?_assocSet_of_any k v l hany]
    rfl
  · rw [if_neg hany, assocLookup,
      find?_assocSet_of_not_any k v l (Bool.not_eq_true _ ▸ hany)]
    rfl

/-- C10: for a path that already has a live watcher in the watcher map,
`GetW` does not query the underlying store (same result whatever the store
returns, `storeQueried = false`), returns the node value snapshotted when
the watcher was created, reports no error, closes no channel, and registers
a fresh one-element delivery channel for the session ID, replacing any
previous channel registered under that session ID in the map.  Freshness is
relative to the stated invariant that every channel id already in the map
is below the allocation counter. -/
theorem getW_cached_watcher :
    ∀ (store store₂ : String → Option String) (mgr : ZookeeperManager)
      (path : String) (sessionID : ℕ) (watcher : NodeWatcher),
      assocLookup mgr.watcherMap path = some watcher →
      (∀ p w, (p, w) ∈ mgr.watcherMap → ∀ sid c, (sid, c) ∈ w.watcherChannels →
        c < mgr.nextChan) →
      (GetW store mgr path sessionID).err = false ∧
      (GetW store mgr path sessionID).storeQueried = false ∧
      GetW store mgr path sessionID = GetW store₂ mgr path sessionID ∧
      (GetW store mgr path sessionID).value = some watcher.nodeValue ∧
      (GetW store mgr path sessionID).closedChans = [] ∧
      (GetW store mgr path sessionID).chanCapacity = 1 ∧
      (GetW store mgr path sessionID).eventChan = some mgr.nextChan ∧
      (∀ sid c, (sid, c) ∈ watcher.watcherChannels → c ≠ mgr.nextChan) ∧
      (∃ watcher', assocLookup (GetW store mgr path sessionID).mgr.watcherMap path =
          some watcher' ∧
        assocLookup watcher'.watcherChannels sessionID = some mgr.nextChan) := by
  intro store store₂ mgr path sessionID watcher hlookup hinv
  have hmem : ∃ p, (p, watcher) ∈ mgr.watcherMap := by
    rw [assocLookup] at hlookup
    obtain ⟨pr, hpr, hpr2⟩ := Option.map_eq_some'.mp hlookup
    refine ⟨pr.1, ?_⟩
    have hm := List.mem_of_find?_eq_some hpr
    rwa [show (pr.1, watcher) = pr from by rw [← hpr2]]
  refine ⟨?_, ?_, ?_, ?_, ?_, ?_, ?_, ?_, ?_⟩
  · simp only [GetW, hlookup]
  · simp only [GetW, hlookup]
  · simp only [GetW, hlookup]
  · simp only [GetW, hlookup]
  · simp only [GetW, hlookup]
  · simp only [GetW, hlookup]
  · simp only [GetW, hlookup]
  · intro sid c hc
    obtain ⟨p, hp⟩ := hmem
    exact Nat.ne_of_lt (hinv p watcher hp sid c hc)
  · refine ⟨{ watcher with
        watcherChannels := assocSet watcher.watcherChannels sessionID mgr.nextChan },
      ?_, ?_⟩
    · simp only [GetW, hlookup]
      exact assocLookup_assocSet _ _ _
    · exact assocLookup_assocSet _ _ _

/-- Witness for `getW_cached_watcher`: the sample manager with a live
watcher on `/switcher/alice` holding one channel, queried with two distinct
stores. -/
theorem getW_cached_watcher_witness :
    (GetW (fun _ => none) sampleZkMgr "/switcher/alice" 9).err = false ∧
    (GetW (fun _ => none) sampleZkMgr "/switcher/alice" 9).storeQueried = false ∧
    GetW (fun _ => none) sampleZkMgr "/switcher/alice" 9 =
      GetW (fun _ => some "bch") sampleZkMgr "/switcher/alice" 9 ∧
    (GetW (fun _ => none) sampleZkMgr "/switcher/alice" 9).value = some "btc" ∧
    (GetW (fun _ => none) sampleZkMgr "/switcher/alice" 9).closedChans = [] ∧
    (GetW (fun _ => none) sampleZkMgr "/switcher/alice" 9).chanCapacity = 1 ∧
    (GetW (fun _ => none) sampleZkMgr "/switcher/alice" 9).eventChan = some 1 := by
  have h := getW_cached_watcher (fun _ => none) (fun _ => some "bch") sampleZkMgr
    "/switcher/alice" 9 ⟨"/switcher/alice", "btc", [(7, 0)]⟩ (by rfl)
    (by
      intro p w hp sid c hc
      simp only [sampleZkMgr, List.mem_singleton, Prod.mk.injEq] at hp
      rw [hp.2] at hc
      simp only [List.mem_singleton, Prod.mk.injEq] at hc
      rw [hc.2]
      decide)
  exact ⟨h.1, h.2.1, h.2.2.1, h.2.2.2.1, h.2.2.2.2.1, h.2.2.2.2.2.1, h.2.2.2.2.2.2.1⟩
